import Mathlib

/-!
Verification of the Queueless India estimator (src/app.py).

The pure sub-operations of the estimator are embedded as Lean
functions: baseline resolution (`get_baseline`), condition
classification (`classify_condition`), range calculation
(`calculate_range`), best-slot scanning (`best_time_today`), the
explanation wrapper (`ai_explanation`) and the rate-limited check-in
(`record_signal`).

Python numeric semantics: Python integers are unbounded, so they are
embedded as `ℕ`/`ℤ` directly.  The expressions `baseline * 1.1`,
`baseline * 0.7`, ... and `sum(vals) / len(vals)` are IEEE-754
double-precision operations; they are embedded exactly via `rnd`,
round-to-nearest-even at 53 significant bits over `ℚ` (normal range;
the subnormal and overflow fringes of doubles are outside every value
this program meets on its data and are not modelled).  The literals
`1.1`, `1.3`, `0.7`, `0.9` are embedded as the exact rational values
of the doubles they denote.  Python `int(x)` truncates toward zero
and is embedded as `pytrunc`.
-/

namespace QueuelessIndia

/-- Python `int(x)` on a float: truncation toward zero. -/
def pytrunc (q : ℚ) : ℤ :=
  if q < 0 then ⌈q⌉ else ⌊q⌋

/-- Binade exponent of a positive rational: the unique `e` with
`2 ^ e ≤ q < 2 ^ (e + 1)`, computed from `Nat.log2` of the numerator
and denominator with one correction step. -/
def dexp (q : ℚ) : ℤ :=
  if (2 : ℚ) ^ ((Nat.log2 q.num.toNat : ℤ) - (Nat.log2 q.den : ℤ)) ≤ q
  then (Nat.log2 q.num.toNat : ℤ) - (Nat.log2 q.den : ℤ)
  else (Nat.log2 q.num.toNat : ℤ) - (Nat.log2 q.den : ℤ) - 1

/-- Scale factor putting `q` at 53 significant bits: `q * dscale q`
lies in `[2 ^ 52, 2 ^ 53)` for positive `q`. -/
def dscale (q : ℚ) : ℚ :=
  2 ^ ((52 : ℤ) - dexp q)

/-- Integer part of the scaled mantissa. -/
def mant (q : ℚ) : ℤ :=
  ⌊q * dscale q⌋

/-- Rounded 53-bit mantissa: round to nearest, ties to even. -/
def rmant (q : ℚ) : ℤ :=
  if 1/2 < q * dscale q - mant q then mant q + 1
  else if q * dscale q - mant q < 1/2 then mant q
  else if mant q % 2 = 0 then mant q else mant q + 1

/-- Rounding of a nonnegative rational to the nearest IEEE-754 double
(normal range), ties to even.  Arguments in this development are
always nonnegative; nonpositive input is mapped to zero. -/
def rnd (q : ℚ) : ℚ :=
  if q ≤ 0 then 0 else (rmant q : ℚ) / dscale q

theorem nat_zpow_two (n : ℕ) : (2 : ℚ) ^ (n : ℤ) = ((2 ^ n : ℕ) : ℚ) := by
  rw [zpow_natCast]
  push_cast
  ring

/-- The binade characterisation of `dexp`. -/
theorem dexp_spec (q : ℚ) (hq : 0 < q) :
    (2 : ℚ) ^ dexp q ≤ q ∧ q < (2 : ℚ) ^ (dexp q + 1) := by
  have hnum : 0 < q.num := Rat.num_pos.mpr hq
  have ha0 : q.num.toNat ≠ 0 := by omega
  have hd0 : q.den ≠ 0 := q.den_nz
  have hcast : ((q.num.toNat : ℕ) : ℚ) = ((q.num : ℤ) : ℚ) := by
    exact_mod_cast congrArg (fun z : ℤ => (z : ℚ)) (Int.toNat_of_nonneg hnum.le)
  have hQ : q = ((q.num.toNat : ℕ) : ℚ) / ((q.den : ℕ) : ℚ) := by
    rw [hcast, Rat.num_div_den]
  set a := q.num.toNat with ha
  set d := q.den with hd
  set la := Nat.log2 a with hla
  set lb := Nat.log2 d with hlb
  have hA1 : (2 : ℕ) ^ la ≤ a := by
    rw [hla, Nat.log2_eq_log_two]
    exact Nat.pow_log_le_self 2 ha0
  have hA2 : a < 2 ^ (la + 1) := by
    rw [hla, Nat.log2_eq_log_two]
    exact Nat.lt_pow_succ_log_self (by norm_num) a
  have hD1 : (2 : ℕ) ^ lb ≤ d := by
    rw [hlb, Nat.log2_eq_log_two]
    exact Nat.pow_log_le_self 2 hd0
  have hD2 : d < 2 ^ (lb + 1) := by
    rw [hlb, Nat.log2_eq_log_two]
    exact Nat.lt_pow_succ_log_self (by norm_num) d
  have hdQ : (0 : ℚ) < (d : ℚ) := by
    exact_mod_cast Nat.pos_of_ne_zero hd0
  have haQ : (0 : ℚ) < (a : ℚ) := by
    exact_mod_cast Nat.pos_of_ne_zero ha0
  have key1 : (2 : ℚ) ^ ((la : ℤ) - lb - 1) ≤ q := by
    have he : ((la : ℤ) - lb - 1) = ((la : ℕ) : ℤ) - (((lb + 1 : ℕ)) : ℤ) := by
      push_cast
      ring
    rw [he, zpow_sub₀ two_ne_zero, nat_zpow_two la, nat_zpow_two (lb + 1), hQ]
    refine div_le_div₀ haQ.le (by exact_mod_cast hA1) hdQ (by exact_mod_cast hD2.le)
  have key2 : q < (2 : ℚ) ^ ((la : ℤ) - lb + 1) := by
    have he : ((la : ℤ) - lb + 1) = (((la + 1 : ℕ)) : ℤ) - ((lb : ℕ) : ℤ) := by
      push_cast
      ring
    rw [he, zpow_sub₀ two_ne_zero, nat_zpow_two (la + 1), nat_zpow_two lb, hQ]
    refine div_lt_div₀ (by exact_mod_cast hA2) (by exact_mod_cast hD1)
      (by positivity) (by positivity)
  rw [dexp]
  split_ifs with h
  · exact ⟨h, key2⟩
  · constructor
    · exact key1
    · have : ((la : ℤ) - lb - 1) + 1 = (la : ℤ) - lb := by ring
      rw [this]
      exact lt_of_not_le h

theorem dscale_pos (q : ℚ) : 0 < dscale q :=
  zpow_pos (by norm_num) _

theorem rmant_cases (q : ℚ) : rmant q = mant q ∨ rmant q = mant q + 1 := by
  rw [rmant]
  split_ifs <;> simp

theorem mant_le (q : ℚ) : (mant q : ℚ) ≤ q * dscale q :=
  Int.floor_le _

theorem lt_mant (q : ℚ) : q * dscale q < mant q + 1 :=
  Int.lt_floor_add_one _

theorem rmant_nonneg (q : ℚ) (hq : 0 < q) : 0 ≤ rmant q := by
  have h0 : 0 ≤ mant q :=
    Int.floor_nonneg.mpr (mul_nonneg hq.le (dscale_pos q).le)
  rcases rmant_cases q with hc | hc <;> omega

theorem rnd_nonneg (q : ℚ) : 0 ≤ rnd q := by
  rw [rnd]
  split_ifs with h
  · exact le_refl 0
  · have hq : 0 < q := lt_of_not_le h
    exact div_nonneg (by exact_mod_cast rmant_nonneg q hq) (dscale_pos q).le

theorem one_div_dscale_le (q : ℚ) (hq : 0 < q) :
    1 / dscale q ≤ q / 2 ^ (52 : ℤ) := by
  have h1 : (2 : ℚ) ^ dexp q ≤ q := (dexp_spec q hq).1
  have hprod : dscale q * (2 : ℚ) ^ dexp q = 2 ^ (52 : ℤ) := by
    rw [dscale, ← zpow_add₀ (two_ne_zero : (2 : ℚ) ≠ 0)]
    congr 1
    ring
  rw [div_le_div_iff (dscale_pos q) (by positivity)]
  calc (1 : ℚ) * 2 ^ (52 : ℤ) = dscale q * 2 ^ dexp q := by rw [hprod, one_mul]
  _ ≤ dscale q * q := mul_le_mul_of_nonneg_left h1 (dscale_pos q).le
  _ = q * dscale q := mul_comm _ _

theorem rnd_le (q : ℚ) (hq : 0 < q) : rnd q ≤ q + q / 2 ^ (52 : ℤ) := by
  rw [rnd, if_neg (not_le.mpr hq)]
  have hs := dscale_pos q
  have hm : (rmant q : ℚ) ≤ q * dscale q + 1 := by
    rcases rmant_cases q with hc | hc <;> rw [hc] <;> push_cast <;>
      [linarith [mant_le q]; linarith [mant_le q]]
  calc (rmant q : ℚ) / dscale q ≤ (q * dscale q + 1) / dscale q :=
        (div_le_div_right hs).mpr hm
  _ = q + 1 / dscale q := by
        rw [add_div, mul_div_cancel_right₀ _ hs.ne']
  _ ≤ q + q / 2 ^ (52 : ℤ) := by linarith [one_div_dscale_le q hq]

theorem rnd_gt (q : ℚ) (hq : 0 < q) : q - q / 2 ^ (52 : ℤ) < rnd q := by
  rw [rnd, if_neg (not_le.mpr hq)]
  have hs := dscale_pos q
  have hm : q * dscale q - 1 < (rmant q : ℚ) := by
    rcases rmant_cases q with hc | hc <;> rw [hc] <;> push_cast <;>
      [linarith [lt_mant q]; linarith [lt_mant q]]
  calc q - q / 2 ^ (52 : ℤ) ≤ q - 1 / dscale q := by
        linarith [one_div_dscale_le q hq]
  _ = (q * dscale q - 1) / dscale q := by
        rw [sub_div, mul_div_cancel_right₀ _ hs.ne']
  _ < (rmant q : ℚ) / dscale q := (div_lt_div_right hs).mpr hm

/-- A natural number below `2 ^ 53` is exactly representable, so `rnd`
fixes it. -/
theorem rnd_natCast (k : ℕ) (h0 : k ≠ 0) (hk : (k : ℚ) < 2 ^ (53 : ℕ)) :
    rnd (k : ℚ) = k := by
  have hq : (0 : ℚ) < k := by exact_mod_cast Nat.pos_of_ne_zero h0
  have he1 : (2 : ℚ) ^ dexp (k : ℚ) ≤ k := (dexp_spec _ hq).1
  have hele : dexp (k : ℚ) ≤ 52 := by
    by_contra hcon
    push_neg at hcon
    have h2 : (2 : ℚ) ^ (53 : ℤ) ≤ 2 ^ dexp (k : ℚ) :=
      zpow_le_zpow_right₀ (by norm_num) (by omega)
    have h3 : ((2 : ℚ) ^ (53 : ℕ)) ≤ (k : ℚ) := by
      calc ((2 : ℚ) ^ (53 : ℕ)) = (2 : ℚ) ^ (53 : ℤ) := by norm_num
      _ ≤ 2 ^ dexp (k : ℚ) := h2
      _ ≤ k := he1
    linarith
  set n := ((52 : ℤ) - dexp (k : ℚ)).toNat with hn
  have hnz : ((52 : ℤ) - dexp (k : ℚ)) = (n : ℤ) := by
    rw [hn]
    exact (Int.toNat_of_nonneg (by omega)).symm
  have hscale : dscale (k : ℚ) = ((2 ^ n : ℕ) : ℚ) := by
    rw [dscale, hnz, nat_zpow_two]
  have hprod : (k : ℚ) * dscale (k : ℚ) = ((k * 2 ^ n : ℕ) : ℚ) := by
    rw [hscale]
    push_cast
    ring
  have hmant : mant (k : ℚ) = ((k * 2 ^ n : ℕ) : ℤ) := by
    rw [mant, hprod]
    exact Int.floor_natCast _
  have hfrac : (k : ℚ) * dscale (k : ℚ) - ((mant (k : ℚ) : ℤ) : ℚ) = 0 := by
    rw [hprod, hmant]
    push_cast
    ring
  have hrm : rmant (k : ℚ) = mant (k : ℚ) := by
    rw [rmant, hfrac]
    norm_num
  rw [rnd, if_neg (not_le.mpr hq), hrm, hmant, hscale]
  have h2n : ((2 ^ n : ℕ) : ℚ) ≠ 0 := by positivity
  push_cast
  rw [mul_div_assoc, div_self (by positivity), mul_one]

/-- Uniqueness of the binade exponent. -/
theorem dexp_eq_of (q : ℚ) (e : ℤ) (h1 : (2 : ℚ) ^ e ≤ q) (h2 : q < 2 ^ (e + 1)) :
    dexp q = e := by
  have hq : 0 < q := lt_of_lt_of_le (zpow_pos (by norm_num) e) h1
  obtain ⟨l, u⟩ := dexp_spec q hq
  by_contra hne
  rcases lt_or_gt_of_ne hne with hlt | hgt
  · have h3 : (2 : ℚ) ^ (dexp q + 1) ≤ 2 ^ e :=
      zpow_le_zpow_right₀ (by norm_num) (by omega)
    linarith
  · have h3 : (2 : ℚ) ^ (e + 1) ≤ 2 ^ dexp q :=
      zpow_le_zpow_right₀ (by norm_num) (by omega)
    linarith

/-- Evaluation rule for `rnd` in the round-down case. -/
theorem rnd_eq_down (q : ℚ) (e m : ℤ) (h1 : (2 : ℚ) ^ e ≤ q) (h2 : q < 2 ^ (e + 1))
    (hm1 : (m : ℚ) ≤ q * 2 ^ ((52 : ℤ) - e))
    (hm2 : q * 2 ^ ((52 : ℤ) - e) - m < 1 / 2) :
    rnd q = (m : ℚ) / 2 ^ ((52 : ℤ) - e) := by
  have hq : 0 < q := lt_of_lt_of_le (zpow_pos (by norm_num) e) h1
  have hde : dexp q = e := dexp_eq_of q e h1 h2
  have hs : dscale q = 2 ^ ((52 : ℤ) - e) := by rw [dscale, hde]
  have hmant : mant q = m := by
    rw [mant, hs]
    exact Int.floor_eq_iff.mpr ⟨hm1, by linarith⟩
  have hrm : rmant q = mant q := by
    rw [rmant, hmant, hs]
    rw [if_neg (by linarith), if_pos (by linarith)]
  rw [rnd, if_neg (not_le.mpr hq), hrm, hmant, hs]

/-- Evaluation rule for `rnd` in the tie case with even mantissa. -/
theorem rnd_eq_tie_even (q : ℚ) (e m : ℤ) (h1 : (2 : ℚ) ^ e ≤ q)
    (h2 : q < 2 ^ (e + 1))
    (hm1 : q * 2 ^ ((52 : ℤ) - e) - m = 1 / 2) (hm2 : m % 2 = 0) :
    rnd q = (m : ℚ) / 2 ^ ((52 : ℤ) - e) := by
  have hq : 0 < q := lt_of_lt_of_le (zpow_pos (by norm_num) e) h1
  have hde : dexp q = e := dexp_eq_of q e h1 h2
  have hs : dscale q = 2 ^ ((52 : ℤ) - e) := by rw [dscale, hde]
  have hmant : mant q = m := by
    rw [mant, hs]
    refine Int.floor_eq_iff.mpr ⟨by linarith, by linarith⟩
  have hrm : rmant q = mant q := by
    rw [rmant, hmant, hs]
    rw [if_neg (by linarith), if_neg (by linarith), if_pos hm2]
  rw [rnd, if_neg (not_le.mpr hq), hrm, hmant, hs]

/-- Exact rational value of the IEEE-754 double nearest to 1.1. -/
def f11 : ℚ := 2476979795053773 / 2 ^ 51

/-- Exact rational value of the IEEE-754 double nearest to 1.3. -/
def f13 : ℚ := 5854679515581645 / 2 ^ 52

/-- Exact rational value of the IEEE-754 double nearest to 0.7. -/
def f07 : ℚ := 3152519739159347 / 2 ^ 52

/-- Exact rational value of the IEEE-754 double nearest to 0.9. -/
def f09 : ℚ := 8106479329266893 / 2 ^ 53

/-- Embedding of classify_condition (src/app.py lines 84-89). -/
def classify_condition (entered completed : ℕ) : String :=
  if entered > completed then "Heavier than usual"
  else if completed > entered then "Lighter than usual"
  else "Normal"

/-- Embedding of calculate_range (src/app.py lines 92-97).  The Python
expression int(baseline * 1.1) converts the unbounded integer baseline
to a double, multiplies by the double written 1.1 with one rounding,
and truncates toward zero; likewise for the other products. -/
def calculate_range (baseline : ℕ) (condition : String) : ℤ × ℤ :=
  if condition = "Heavier than usual" then
    (pytrunc (rnd (rnd (baseline : ℚ) * f11)), pytrunc (rnd (rnd (baseline : ℚ) * f13)))
  else if condition = "Lighter than usual" then
    (pytrunc (rnd (rnd (baseline : ℚ) * f07)), pytrunc (rnd (rnd (baseline : ℚ) * f09)))
  else
    (pytrunc (rnd (rnd (baseline : ℚ) * f09)), pytrunc (rnd (rnd (baseline : ℚ) * f11)))

/-- Row of the baseline_wait_times table (spec section 3: day-of-week
0 to 6, average-wait-minutes a nonnegative integer). -/
structure BaselineRecord where
  office_id : ℕ
  day_of_week : ℕ
  time_slot : String
  avg_wait_minutes : ℕ
deriving DecidableEq

/-- The store query with filters office_id, day_of_week and time_slot
(src/app.py lines 51-56), order-preserving. -/
def baselineExact (store : List BaselineRecord) (office day : ℕ)
    (slot : String) : List BaselineRecord :=
  store.filter fun r =>
    r.office_id == office && r.day_of_week == day && r.time_slot == slot

/-- The fallback store query with filters office_id and time_slot only
(src/app.py lines 61-65). -/
def baselineSlot (store : List BaselineRecord) (office : ℕ)
    (slot : String) : List BaselineRecord :=
  store.filter fun r => r.office_id == office && r.time_slot == slot

/-- Embedding of get_baseline (src/app.py lines 50-71).  The fallback
mean is int(sum(vals) / len(vals)): an exact integer sum, one correctly
rounded double division, truncation toward zero.  The truncated mean of
nonnegative values is nonnegative, so the final Int.toNat is lossless
and only adjusts the type to ℕ, the image of Python ints here. -/
def get_baseline (store : List BaselineRecord) (office day : ℕ)
    (slot : String) : Option ℕ :=
  match baselineExact store office day slot with
  | r :: _ => some r.avg_wait_minutes
  | [] =>
    match baselineSlot store office slot with
    | [] => none
    | fb =>
      some ((pytrunc (rnd
        (((fb.map BaselineRecord.avg_wait_minutes).sum : ℚ) /
          (fb.length : ℚ)))).toNat)

/-- Two-digit decimal formatting of a slot hour (Python 02d format). -/
def two_digit (n : ℕ) : String :=
  if n < 10 then "0" ++ toString n else toString n

/-- The slot label built by the f-string on src/app.py line 123. -/
def slot_label (h : ℕ) : String :=
  two_digit h ++ ":00-" ++ two_digit (h + 1) ++ ":00"

/-- One iteration of the best_time_today loop (src/app.py lines
122-126).  Python evaluates `if b and (best is None or b < best[1])`,
so a slot whose resolved baseline is 0 is treated like a missing one
(0 is falsy), and a strict less-than keeps the earliest minimum. -/
def best_step (store : List BaselineRecord) (office today h : ℕ)
    (best : Option (String × ℕ)) : Option (String × ℕ) :=
  match get_baseline store office today (slot_label h) with
  | none => best
  | some b =>
    if b = 0 then best
    else
      match best with
      | none => some (slot_label h, b)
      | some p => if b < p.2 then some (slot_label h, b) else best

/-- Embedding of best_time_today (src/app.py lines 119-127); `today`
is the weekday of the current date, supplied as a parameter. -/
def best_time_today (store : List BaselineRecord) (office today : ℕ) :
    Option (String × ℕ) :=
  List.foldl (fun best h => best_step store office today h best) none
    [9, 10, 11, 12, 13, 14, 15, 16]

/-- The dictionary inserted into the live_signals table by the
check-in handlers (src/app.py lines 226-230 and 237-241).  The payload
carries office_id, signal_type and user_id; it has no timestamp entry,
which is modelled by an optional timestamp left `none`. -/
structure LiveSignalRow where
  office_id : ℕ
  signal_type : String
  user_id : String
  timestamp : Option ℚ
deriving DecidableEq

/-- Per-session state: the rows this session inserted and the
last_signal_time session variable (src/app.py lines 40-41). -/
structure SessionState where
  live_signals : List LiveSignalRow
  last_signal_time : Option ℚ
deriving DecidableEq

/-- Embedding of can_send_signal (src/app.py lines 43-46).  Instants
are rationals measured in minutes; timedelta(minutes=5) is 5. -/
def can_send_signal (st : SessionState) (now : ℚ) : Bool :=
  match st.last_signal_time with
  | none => true
  | some t => decide (now - t > 5)

/-- The check-in button handler (src/app.py lines 223-243): when
can_send_signal passes, insert the three-field row and set
last_signal_time to now; otherwise do nothing.  Returns the accepted
flag together with the new state. -/
def record_signal (st : SessionState) (now : ℚ) (office : ℕ)
    (ty user : String) : Bool × SessionState :=
  if can_send_signal st now then
    (true, ⟨st.live_signals ++ [⟨office, ty, user, none⟩], some now⟩)
  else
    (false, st)

/-- Outcome of one call to the external text generator: either free
text, or any raising behaviour (timeout, quota, malformed response). -/
inductive GenOutcome where
  | success (text : String)
  | failure
deriving DecidableEq

/-- The fixed fallback sentence (src/app.py lines 110 and 116). -/
def fallback_text : String :=
  "This estimate is based on past data and recent visitor activity."

/-- The prompt f-string sent to the generator (src/app.py line 113). -/
def build_prompt (day : ℕ) (slot : String) (baseline : ℕ)
    (condition : String) : String :=
  "Explain waiting time simply. Baseline " ++ toString baseline ++
    " mins, condition " ++ condition ++ "."

/-- Embedding of ai_explanation (src/app.py lines 108-116).  The
generator is `none` when unconfigured (no API key); `GenOutcome.failure`
covers every raising behaviour, all caught by the bare except clause.
Totality of this function embeds the never-raises contract. -/
def ai_explanation (gen : Option (String → GenOutcome)) (day : ℕ)
    (slot : String) (baseline : ℕ) (condition : String) : String :=
  match gen with
  | none => fallback_text
  | some g =>
    match g (build_prompt day slot baseline condition) with
    | .success t => t
    | .failure => fallback_text

/-- C5: classify_condition returns Heavier when entered exceeds
completed, Lighter when completed exceeds entered, and Normal when the
counts are equal, including both zero. -/
theorem classify_condition_spec (entered completed : ℕ) :
    (completed < entered →
      classify_condition entered completed = "Heavier than usual") ∧
    (entered < completed →
      classify_condition entered completed = "Lighter than usual") ∧
    (entered = completed → classify_condition entered completed = "Normal") := by
  unfold classify_condition
  refine ⟨fun h => ?_, fun h => ?_, fun h => ?_⟩
  · rw [if_pos h]
  · rw [if_neg (by omega), if_pos h]
  · rw [if_neg (by omega), if_neg (by omega)]

/-- C5 witness: the four example classifications of the spec. -/
theorem classify_condition_spec_witness :
    classify_condition 5 2 = "Heavier than usual" ∧
    classify_condition 1 4 = "Lighter than usual" ∧
    classify_condition 3 3 = "Normal" ∧
    classify_condition 0 0 = "Normal" :=
  ⟨(classify_condition_spec 5 2).1 (by decide),
   (classify_condition_spec 1 4).2.1 (by decide),
   (classify_condition_spec 3 3).2.2 rfl,
   (classify_condition_spec 0 0).2.2 rfl⟩

/-- C3: a check-in is accepted iff last_signal_time is unset or the
elapsed time strictly exceeds 5 minutes; acceptance appends the row
and moves last_signal_time to now; rejection leaves the state
unchanged. -/
theorem record_signal_spec (st : SessionState) (now : ℚ) (office : ℕ)
    (ty user : String) :
    ((record_signal st now office ty user).1 = true ↔
      st.last_signal_time = none ∨
        ∃ t, st.last_signal_time = some t ∧ now - t > 5) ∧
    ((record_signal st now office ty user).1 = true →
      (record_signal st now office ty user).2 =
        ⟨st.live_signals ++ [⟨office, ty, user, none⟩], some now⟩) ∧
    ((record_signal st now office ty user).1 = false →
      (record_signal st now office ty user).2 = st) := by
  unfold record_signal can_send_signal
  rcases hlast : st.last_signal_time with _ | t
  · simp
  · by_cases h : now - t > 5
    · simp [h]
    · simp [h]

/-- C3 witness: a first check-in at 0 is accepted; a second one at 4
is rejected leaving the state unchanged; one at 6 is accepted. -/
theorem record_signal_spec_witness :
    (record_signal ⟨[], none⟩ 0 1 "entered" "u").1 = true ∧
    (record_signal ⟨[⟨1, "entered", "u", none⟩], some 0⟩ 4 1 "entered" "u").1 =
      false ∧
    (record_signal ⟨[⟨1, "entered", "u", none⟩], some 0⟩ 4 1 "entered" "u").2 =
      ⟨[⟨1, "entered", "u", none⟩], some 0⟩ ∧
    (record_signal ⟨[⟨1, "entered", "u", none⟩], some 0⟩ 6 1 "entered" "u").1 =
      true := by
  have h0 := record_signal_spec ⟨[], none⟩ 0 1 "entered" "u"
  have h4 := record_signal_spec ⟨[⟨1, "entered", "u", none⟩], some 0⟩ 4 1
    "entered" "u"
  have h6 := record_signal_spec ⟨[⟨1, "entered", "u", none⟩], some 0⟩ 6 1
    "entered" "u"
  have ha : (record_signal (⟨[], none⟩ : SessionState) 0 1 "entered" "u").1 =
      true := h0.1.mpr (Or.inl rfl)
  have hr : (record_signal (⟨[⟨1, "entered", "u", none⟩], some 0⟩ :
      SessionState) 4 1 "entered" "u").1 = false := by
    rcases hb : (record_signal (⟨[⟨1, "entered", "u", none⟩], some 0⟩ :
        SessionState) 4 1 "entered" "u").1 with _ | _
    · rfl
    · exfalso
      rcases h4.1.mp hb with hc | ⟨t, ht, hgt⟩
      · exact Option.noConfusion hc
      · rw [Option.some_inj] at ht
        rw [← ht] at hgt
        norm_num at hgt
  refine ⟨ha, hr, h4.2.2 hr, h6.1.mpr (Or.inr ⟨0, rfl, by norm_num⟩)⟩

/-- C8 amended: every accepted check-in appends exactly the
three-field row with office id, signal type and user id; no timestamp
is supplied by the application. -/
theorem record_signal_row (st : SessionState) (now : ℚ) (office : ℕ)
    (ty user : String)
    (h : (record_signal st now office ty user).1 = true) :
    (record_signal st now office ty user).2.live_signals =
      st.live_signals ++ [⟨office, ty, user, none⟩] := by
  unfold record_signal at h ⊢
  by_cases hc : can_send_signal st now
  · simp [hc]
  · rw [if_neg hc] at h
    exact absurd h (by simp)

/-- C8 amended witness: a concrete accepted check-in appends the
three-field row. -/
theorem record_signal_row_witness :
    (record_signal ⟨[], none⟩ 0 7 "entered" "u").2.live_signals =
      [⟨7, "entered", "u", none⟩] := by
  have h := record_signal_row ⟨[], none⟩ 0 7 "entered" "u"
    (by simp [record_signal, can_send_signal])
  simpa using h

/-- C8 counterexample: at a concrete accepted check-in at instant 10,
the inserted row carries no timestamp at all, in particular not the
check-in instant. -/
theorem record_signal_no_timestamp :
    ((record_signal ⟨[], none⟩ 10 7 "entered" "u").2.live_signals.map
      LiveSignalRow.timestamp) = [none] ∧ (none : Option ℚ) ≠ some 10 := by
  constructor
  · simp [record_signal, can_send_signal]
  · simp

/-- C6 counterexample: when the generator succeeds with empty text,
ai_explanation returns empty text. -/
theorem ai_explanation_empty :
    ai_explanation (some fun _ => GenOutcome.success "") 0 "09:00-10:00" 30
      "Normal" = "" := rfl

/-- C6 amended: ai_explanation is a total function (the bare except
catches every raising generator behaviour) and returns the fixed
nonempty fallback when unconfigured or on failure, and the generator
text verbatim on success; hence the result is nonempty unless the
generator succeeds with empty text. -/
theorem ai_explanation_spec (gen : Option (String → GenOutcome)) (day : ℕ)
    (slot : String) (baseline : ℕ) (condition : String) :
    (gen = none →
      ai_explanation gen day slot baseline condition = fallback_text) ∧
    (∀ g, gen = some g →
      g (build_prompt day slot baseline condition) = GenOutcome.failure →
      ai_explanation gen day slot baseline condition = fallback_text) ∧
    (∀ g t, gen = some g →
      g (build_prompt day slot baseline condition) = GenOutcome.success t →
      ai_explanation gen day slot baseline condition = t) ∧
    fallback_text ≠ "" ∧
    (ai_explanation gen day slot baseline condition ≠ "" ∨
      ∃ g, gen = some g ∧
        g (build_prompt day slot baseline condition) =
          GenOutcome.success "") := by
  refine ⟨fun hnone => by rw [hnone]; rfl, fun g hg hfail => ?_,
    fun g t hg hsucc => ?_, by decide, ?_⟩
  · rw [hg]
    simp only [ai_explanation]
    rw [hfail]
  · rw [hg]
    simp only [ai_explanation]
    rw [hsucc]
  · rcases gen with _ | g
    · left
      show fallback_text ≠ ""
      decide
    · rcases hg : g (build_prompt day slot baseline condition) with t | _
      · by_cases ht : t = ""
        · right
          exact ⟨g, rfl, by rw [hg, ht]⟩
        · left
          simp only [ai_explanation]
          rw [hg]
          exact ht
      · left
        simp only [ai_explanation]
        rw [hg]
        decide

/-- C6 amended witness: unconfigured and failing generators yield the
fallback sentence, a succeeding generator yields its text. -/
theorem ai_explanation_spec_witness :
    ai_explanation none 3 "10:00-11:00" 25 "Normal" = fallback_text ∧
    ai_explanation (some fun p => GenOutcome.failure) 3 "10:00-11:00" 25
      "Normal" = fallback_text ∧
    ai_explanation (some fun p => GenOutcome.success "short queues") 3
      "10:00-11:00" 25 "Normal" = "short queues" := by
  have h1 := ai_explanation_spec none 3 "10:00-11:00" 25 "Normal"
  have h2 := ai_explanation_spec (some fun p => GenOutcome.failure) 3
    "10:00-11:00" 25 "Normal"
  have h3 := ai_explanation_spec (some fun p => GenOutcome.success
    "short queues") 3 "10:00-11:00" 25 "Normal"
  exact ⟨h1.1 rfl, h2.2.1 _ rfl rfl, h3.2.2.1 _ _ rfl rfl⟩

/-- C7 counterexample: two calls differing in both day and slot
produce the identical prompt, so the prompt is not built from day and
slot. -/
theorem build_prompt_ignores_day_slot :
    build_prompt 0 "09:00-10:00" 100 "Normal" =
      build_prompt 6 "16:00-17:00" 100 "Normal" ∧
    (0 : ℕ) ≠ 6 ∧ "09:00-10:00" ≠ "16:00-17:00" :=
  ⟨rfl, by decide, by decide⟩

/-- C7 amended: the prompt sent to the generator is built from the
baseline and the condition only; day and slot do not influence it. -/
theorem build_prompt_eq (day dayq : ℕ) (slot slotq : String)
    (baseline : ℕ) (condition : String) :
    build_prompt day slot baseline condition =
      build_prompt dayq slotq baseline condition := rfl

/-- C10: when the exact query returns several records, get_baseline
returns the value of the first and ignores the rest; the fallback is
not consulted. -/
theorem get_baseline_first_exact (store : List BaselineRecord)
    (office day : ℕ) (slot : String) (r₁ r₂ : BaselineRecord)
    (rest : List BaselineRecord)
    (h : baselineExact store office day slot = r₁ :: r₂ :: rest) :
    get_baseline store office day slot = some r₁.avg_wait_minutes := by
  unfold get_baseline
  rw [h]

/-- C10 witness: two exact records with values 10 and 20; the resolver
returns 10. -/
theorem get_baseline_first_exact_witness :
    get_baseline [⟨1, 0, "09:00-10:00", 10⟩, ⟨1, 0, "09:00-10:00", 20⟩] 1 0
      "09:00-10:00" = some 10 :=
  get_baseline_first_exact
    [⟨1, 0, "09:00-10:00", 10⟩, ⟨1, 0, "09:00-10:00", 20⟩] 1 0 "09:00-10:00"
    ⟨1, 0, "09:00-10:00", 10⟩ ⟨1, 0, "09:00-10:00", 20⟩ [] (by decide)

/-- C1: evaluation at the failing input.  With baselines 0 at
09:00-10:00 and 40 at 10:00-11:00 for today, the minimum resolvable
baseline over the scan is 0 at the earliest slot, yet the loop
condition `if b and ...` treats the resolved 0 as falsy, skips that
slot, and the scan returns the 40-minute slot instead. -/
theorem best_time_today_skips_zero :
    best_time_today [⟨1, 0, "09:00-10:00", 0⟩, ⟨1, 0, "10:00-11:00", 40⟩] 1 0 =
      some ("10:00-11:00", 40) ∧
    get_baseline [⟨1, 0, "09:00-10:00", 0⟩, ⟨1, 0, "10:00-11:00", 40⟩] 1 0
      "09:00-10:00" = some 0 :=
  ⟨by decide, by decide⟩

/-- C4: evaluation at the failing input 90 with condition Lighter.
The code returns (62, 81) although floor(90 * 0.7) = 63: the double
nearest 0.7 lies below 7/10, so the rounded product is
62.99999999999999289..., and truncation yields 62. -/
theorem calculate_range_90_lighter :
    calculate_range 90 "Lighter than usual" = (62, 81) ∧ (62 : ℤ) ≠ 63 := by
  refine ⟨?_, by decide⟩
  have h90 : rnd ((90 : ℕ) : ℚ) = ((90 : ℕ) : ℚ) :=
    rnd_natCast 90 (by norm_num) (by norm_num)
  have hlow : rnd (((90 : ℕ) : ℚ) * f07) =
      (8866461766385663 : ℚ) / 2 ^ ((52 : ℤ) - 5) :=
    rnd_eq_down _ 5 8866461766385663 (by norm_num [f07]) (by norm_num [f07])
      (by norm_num [f07]) (by norm_num [f07])
  have hhigh : rnd (((90 : ℕ) : ℚ) * f09) =
      (5699868278390784 : ℚ) / 2 ^ ((52 : ℤ) - 6) :=
    rnd_eq_down _ 6 5699868278390784 (by norm_num [f09]) (by norm_num [f09])
      (by norm_num [f09]) (by norm_num [f09])
  rw [calculate_range, if_neg (by decide), if_pos rfl, h90, hlow, hhigh]
  simp only [pytrunc]
  rw [if_neg (by norm_num), if_neg (by norm_num)]
  norm_num [Prod.ext_iff]

theorem pytrunc_eq_floor (q : ℚ) (h : 0 ≤ q) : pytrunc q = ⌊q⌋ := by
  rw [pytrunc, if_neg (not_lt.mpr h)]

theorem pytrunc_rnd_nonneg (q : ℚ) : 0 ≤ pytrunc (rnd q) := by
  rw [pytrunc_eq_floor _ (rnd_nonneg q)]
  exact Int.floor_nonneg.mpr (rnd_nonneg q)

/-- Comparison of two rounded products sharing the left factor, for
coefficients far enough apart to absorb both rounding errors. -/
theorem rnd_mul_le_rnd_mul (B cl ch : ℚ) (hB : 0 ≤ B) (hcl : 0 < cl)
    (hch : 0 < ch)
    (h : cl * (1 + ((2 : ℚ) ^ (52 : ℤ))⁻¹) ≤
      ch * (1 - ((2 : ℚ) ^ (52 : ℤ))⁻¹)) :
    rnd (B * cl) ≤ rnd (B * ch) := by
  rcases eq_or_lt_of_le hB with hB0 | hBpos
  · rw [← hB0, zero_mul, zero_mul]
  · have hx : 0 < B * cl := mul_pos hBpos hcl
    have hy : 0 < B * ch := mul_pos hBpos hch
    have h1 := rnd_le (B * cl) hx
    have h2 := rnd_gt (B * ch) hy
    have hmono : B * (cl * (1 + ((2 : ℚ) ^ (52 : ℤ))⁻¹)) ≤
        B * (ch * (1 - ((2 : ℚ) ^ (52 : ℤ))⁻¹)) :=
      mul_le_mul_of_nonneg_left h hBpos.le
    rw [div_eq_mul_inv] at h1 h2
    ring_nf at h1 h2 hmono ⊢
    linarith

theorem pytrunc_rnd_mono (B cl ch : ℚ) (hB : 0 ≤ B) (hcl : 0 < cl)
    (hch : 0 < ch)
    (h : cl * (1 + ((2 : ℚ) ^ (52 : ℤ))⁻¹) ≤
      ch * (1 - ((2 : ℚ) ^ (52 : ℤ))⁻¹)) :
    pytrunc (rnd (B * cl)) ≤ pytrunc (rnd (B * ch)) := by
  rw [pytrunc_eq_floor _ (rnd_nonneg _), pytrunc_eq_floor _ (rnd_nonneg _)]
  exact Int.floor_mono (rnd_mul_le_rnd_mul B cl ch hB hcl hch h)

/-- C9: for every nonnegative integer baseline and every condition
string, the produced pair has a nonnegative low bound and low ≤ high. -/
theorem calculate_range_bounds (baseline : ℕ) (condition : String) :
    0 ≤ (calculate_range baseline condition).1 ∧
      (calculate_range baseline condition).1 ≤
        (calculate_range baseline condition).2 := by
  have hB : (0 : ℚ) ≤ rnd (baseline : ℚ) := rnd_nonneg _
  rw [calculate_range]
  split_ifs <;>
    exact ⟨pytrunc_rnd_nonneg _,
      pytrunc_rnd_mono _ _ _ hB (by norm_num [f11, f13, f07, f09])
        (by norm_num [f11, f13, f07, f09])
        (by norm_num [f11, f13, f07, f09])⟩

/-- Float mean: for a sum within double precision, the correctly
rounded double quotient truncates to the integer quotient. -/
theorem rnd_mean_floor (s n : ℕ) (hn : n ≠ 0) (hs : s < 2 ^ 52) :
    ⌊rnd ((s : ℚ) / (n : ℚ))⌋ = ((s / n : ℕ) : ℤ) := by
  have hnQ : (0 : ℚ) < (n : ℚ) := by exact_mod_cast Nat.pos_of_ne_zero hn
  rcases Nat.eq_zero_or_pos s with hs0 | hspos
  · subst hs0
    simp [rnd]
  · have hq : (0 : ℚ) < (s : ℚ) / (n : ℚ) := by positivity
    set q : ℚ := (s : ℚ) / (n : ℚ) with hqdef
    set d := s / n with hd
    set r := s % n with hr
    have hsplit : n * d + r = s := Nat.div_add_mod s n
    have hrn : r < n := Nat.mod_lt _ (Nat.pos_of_ne_zero hn)
    have hsQ : (s : ℚ) = (n : ℚ) * (d : ℚ) + (r : ℚ) := by
      exact_mod_cast hsplit.symm
    have hqd : q = (d : ℚ) + (r : ℚ) / (n : ℚ) := by
      rw [hqdef, hsQ, add_div, mul_comm (n : ℚ) (d : ℚ), mul_div_assoc,
        div_self hnQ.ne', mul_one]
    have hsQlt : (s : ℚ) < 2 ^ (52 : ℤ) := by
      have h0 : (s : ℚ) < ((2 ^ 52 : ℕ) : ℚ) := by exact_mod_cast hs
      calc (s : ℚ) < ((2 ^ 52 : ℕ) : ℚ) := h0
      _ = 2 ^ (52 : ℤ) := by
          push_cast
          norm_num
    have hmov : q / 2 ^ (52 : ℤ) < 1 / (n : ℚ) := by
      rw [hqdef, div_div, div_lt_div_iff (by positivity) hnQ]
      have h1 := mul_lt_mul_of_pos_right hsQlt hnQ
      rw [one_mul, mul_comm ((n : ℚ)) ((2 : ℚ) ^ (52 : ℤ))]
      exact h1
    have hup : rnd q < (d : ℚ) + 1 := by
      have h1 := rnd_le q hq
      have hrn1 : (r : ℚ) + 1 ≤ (n : ℚ) := by
        exact_mod_cast Nat.succ_le_of_lt hrn
      have h2 : (r : ℚ) / n + 1 / n ≤ 1 := by
        rw [div_add_div_same, div_le_one hnQ]
        exact hrn1
      have h3 : q + 1 / (n : ℚ) ≤ (d : ℚ) + 1 := by
        rw [hqd]
        linarith
      linarith
    rcases Nat.eq_zero_or_pos r with hr0 | hrpos
    · have hqint : q = ((d : ℕ) : ℚ) := by
        rw [hqd, hr0]
        simp
      have hd0 : d ≠ 0 := by
        intro hd00
        rw [hd00] at hsplit
        simp at hsplit
        omega
      have hdlt : ((d : ℕ) : ℚ) < 2 ^ (53 : ℕ) := by
        have h1 : d < 2 ^ 53 :=
          lt_of_le_of_lt (Nat.div_le_self s n) (lt_trans hs (by norm_num))
        exact_mod_cast h1
      rw [hqint, rnd_natCast d hd0 hdlt, Int.floor_natCast]
    · have h2 := rnd_gt q hq
      have h3 : (1 : ℚ) ≤ (r : ℚ) := by exact_mod_cast hrpos
      have h4 : (d : ℚ) ≤ q - 1 / n := by
        have h5 : (0 : ℚ) ≤ ((r : ℚ) - 1) / n := div_nonneg (by linarith) hnQ.le
        have h6 : (r : ℚ) / n - 1 / n = ((r : ℚ) - 1) / n :=
          div_sub_div_same (r : ℚ) 1 (n : ℚ)
        rw [hqd]
        linarith
      have hlow : (d : ℚ) ≤ rnd q := by linarith
      refine Int.floor_eq_iff.mpr ⟨?_, ?_⟩
      · push_cast
        exact hlow
      · push_cast
        exact hup

/-- Evaluation of the fallback branch value of get_baseline under the
double-precision bound. -/
theorem get_baseline_fallback_eval (fb : List BaselineRecord)
    (hfb : fb ≠ [])
    (hsum : (fb.map BaselineRecord.avg_wait_minutes).sum < 2 ^ 52) :
    (pytrunc (rnd (((fb.map BaselineRecord.avg_wait_minutes).sum : ℚ) /
      (fb.length : ℚ)))).toNat =
      (fb.map BaselineRecord.avg_wait_minutes).sum / fb.length := by
  have hn : fb.length ≠ 0 := by
    intro h
    exact hfb (List.length_eq_zero.mp h)
  have hfl := rnd_mean_floor (fb.map BaselineRecord.avg_wait_minutes).sum
    fb.length hn hsum
  rw [pytrunc_eq_floor _ (rnd_nonneg _), hfl]
  exact Int.toNat_natCast _

/-- C2 amended: the resolver returns the exact record value when the
exact query yields a unique record; when the exact query is empty and
the per-slot query is nonempty with a sum of values within double
precision (below 2 ^ 52), it returns the truncated arithmetic mean of
those values; when both queries are empty it returns none. -/
theorem get_baseline_spec (store : List BaselineRecord) (office day : ℕ)
    (slot : String) :
    (∀ r : BaselineRecord, baselineExact store office day slot = [r] →
      get_baseline store office day slot = some r.avg_wait_minutes) ∧
    (baselineExact store office day slot = [] →
      baselineSlot store office slot ≠ [] →
      ((baselineSlot store office slot).map
        BaselineRecord.avg_wait_minutes).sum < 2 ^ 52 →
      get_baseline store office day slot = some
        ((((baselineSlot store office slot).map
          BaselineRecord.avg_wait_minutes).sum) /
          (baselineSlot store office slot).length)) ∧
    (baselineExact store office day slot = [] →
      baselineSlot store office slot = [] →
      get_baseline store office day slot = none) := by
  refine ⟨fun r hr => ?_, fun h1 h2 h3 => ?_, fun h1 h2 => ?_⟩
  · unfold get_baseline
    rw [hr]
  · unfold get_baseline
    rw [h1]
    rcases hfb : baselineSlot store office slot with _ | ⟨a, l⟩
    · exact absurd hfb h2
    · rw [hfb] at h3
      exact congrArg some (get_baseline_fallback_eval (a :: l)
        (List.cons_ne_nil a l) h3)
  · unfold get_baseline
    rw [h1, h2]

/-- C2 amended witness: values 30 and 45 on the same slot of other
days; the resolver returns the truncated mean 37. -/
theorem get_baseline_spec_witness :
    get_baseline [⟨1, 0, "09:00-10:00", 30⟩, ⟨1, 1, "09:00-10:00", 45⟩] 1 2
      "09:00-10:00" = some 37 := by
  have h := (get_baseline_spec
    [⟨1, 0, "09:00-10:00", 30⟩, ⟨1, 1, "09:00-10:00", 45⟩] 1 2
    "09:00-10:00").2.1 (by decide) (by decide) (by decide)
  exact h.trans (by decide)

/-- C2 counterexample: a single fallback record on another day with
value 2 ^ 53 + 1.  The float mean rounds that value to 2 ^ 53 (ties to
even), so the resolver returns 9007199254740992 and not the truncated
arithmetic mean 9007199254740993. -/
theorem get_baseline_mean_rounds :
    get_baseline [⟨1, 1, "09:00-10:00", 9007199254740993⟩] 1 0
      "09:00-10:00" = some 9007199254740992 ∧
    (9007199254740992 : ℕ) ≠ 9007199254740993 := by
  refine ⟨?_, by decide⟩
  have hex : baselineExact [⟨1, 1, "09:00-10:00", 9007199254740993⟩] 1 0
      "09:00-10:00" = [] := by decide
  have hfb : baselineSlot [⟨1, 1, "09:00-10:00", 9007199254740993⟩] 1
      "09:00-10:00" = [⟨1, 1, "09:00-10:00", 9007199254740993⟩] := by decide
  unfold get_baseline
  rw [hex, hfb]
  show some ((pytrunc (rnd (((9007199254740993 : ℕ) : ℚ) /
    ((1 : ℕ) : ℚ)))).toNat) = some 9007199254740992
  have harg : ((9007199254740993 : ℕ) : ℚ) / ((1 : ℕ) : ℚ) =
      (9007199254740993 : ℚ) := by norm_num
  have hrnd : rnd ((9007199254740993 : ℚ)) =
      (4503599627370496 : ℚ) / 2 ^ ((52 : ℤ) - 53) :=
    rnd_eq_tie_even _ 53 4503599627370496 (by norm_num) (by norm_num)
      (by norm_num) (by decide)
  rw [harg, hrnd, pytrunc_eq_floor _ (by norm_num)]
  norm_num
  rfl

end QueuelessIndia
